import Mathlib

/-!
Shallow embedding of the Red Pitaya oscilloscope driver
`src/jupyter/redpitaya/drv/osc.py` (class `osc`), together with proofs
about its register-level behaviour.

Modelling conventions:
* Machine integers are `ℕ`/`ℤ` with explicit reduction: unsigned 32-bit
  register fields are `ℕ` (values written are wrapped with `uint32`),
  signed 32-bit fields are `ℤ` (wrapped with `int32`).
* Python floats are modelled by `ℚ`; a numpy assignment of a float to an
  `int32` record field casts C-style, truncating toward zero (`ratTrunc`).
* A setter that can raise returns `Regset × Bool`; the `Bool` is `true`
  exactly when the Python code raises, and the returned `Regset` is the
  memory-mapped register state at the moment of the raise (writes that
  happened before the raise persist, as they do on the real hardware).
-/

namespace OscDrv

/-- Truncation toward zero: the semantics of numpy assigning a Python
float to an `int32` record field (a C-style cast). -/
def ratTrunc (q : ℚ) : ℤ := if 0 ≤ q then ⌊q⌋ else ⌈q⌉

/-- Wrap an integer into the signed 32-bit range, the effect of storing
into an `int32` register field. -/
def int32 (n : ℤ) : ℤ := (n + 2 ^ 31) % 2 ^ 32 - 2 ^ 31

/-- Wrap an integer into the unsigned 32-bit range, the effect of storing
into a `uint32` register field. -/
def uint32 (n : ℤ) : ℕ := (n % 2 ^ 32).toNat

/-- The register set `osc.regset_dtype`: 32-bit words in declaration order
(the reserved padding word `rsv_001` carries no state and is omitted).
Unsigned fields are `ℕ`, the signed fields (`cfg_neg`, `cfg_pos` and the
four filter coefficients) are `ℤ`. -/
structure Regset where
  ctl_sts : ℕ
  irq_ena : ℕ
  irq_sts : ℕ
  cfg_rst : ℕ
  cfg_str : ℕ
  cfg_stp : ℕ
  cfg_trg : ℕ
  cfg_pre : ℕ
  cfg_pst : ℕ
  sts_pre : ℕ
  sts_pst : ℕ
  cfg_neg : ℤ
  cfg_pos : ℤ
  cfg_edg : ℕ
  cfg_hld : ℕ
  cfg_dec : ℕ
  cfg_shr : ℕ
  cfg_avg : ℕ
  cfg_byp : ℕ
  cfg_faa : ℤ
  cfg_fbb : ℤ
  cfg_fkk : ℤ
  cfg_fpp : ℤ
  deriving Repr, DecidableEq

/-- An all-zero register state, used as a concrete starting point. -/
def Regset.zero : Regset :=
  ⟨0, 0, 0, 0, 0, 0, 0, 0, 0, 0, 0, 0, 0, 0, 0, 0, 0, 0, 0, 0, 0, 0, 0⟩

namespace osc

/-- `osc.FS`: fixed hardware sampling clock, 125 MHz. -/
def FS : ℚ := 125000000

/-- `osc.DW`: register data width. -/
def DW : ℕ := 16

/-- `osc.DWr = (1 << (DW-1)) - 1`: fixed-point full-scale magnitude. -/
def DWr : ℕ := (1 <<< (DW - 1)) - 1

/-- `osc.N = 2**14`: circular buffer table size. -/
def N : ℕ := 2 ^ 14

/-- `osc.edges`: the trigger-edge alias dictionary. -/
def edges (s : String) : Option ℕ :=
  if s = "positive" then some 0
  else if s = "negative" then some 1
  else if s = "pos" then some 0
  else if s = "neg" then some 1
  else if s = "p" then some 0
  else if s = "n" then some 1
  else if s = "+" then some 0
  else if s = "-" then some 1
  else none

/-- `osc.ranges`: the two supported analog input ranges, in volts. -/
def ranges : List ℚ := [1, 20]

/-- `osc.filters`: static filter-coefficient table keyed by input range,
tuples (AA, BB, KK, PP). -/
def filters (r : ℚ) : Option (ℤ × ℤ × ℤ × ℤ) :=
  if r = 1 then some (0x7D93, 0x437C7, 0xd9999a, 0x2666)
  else if r = 20 then some (0x4C5F, 0x2F38B, 0xd9999a, 0x2666)
  else none

/-- `osc.level` setter: validates each component of `(neg, pos)` against
`[-1, 1]` in sequence; a valid negative level is written to `cfg_neg`
before the positive level is checked, so an invalid positive level
raises only after `cfg_neg` has already been updated. -/
def level_set (s : Regset) (inputRange : ℚ) (value : ℚ × ℚ) : Regset × Bool :=
  let scale : ℚ := (DWr : ℚ) / inputRange
  if -1 ≤ value.1 ∧ value.1 ≤ 1 then
    let s1 := { s with cfg_neg := int32 (ratTrunc (value.1 * scale)) }
    if -1 ≤ value.2 ∧ value.2 ≤ 1 then
      ({ s1 with cfg_pos := int32 (ratTrunc (value.2 * scale)) }, false)
    else (s1, true)
  else (s, true)

/-- `osc.level` getter: converts the stored counts back to volts. -/
def level_get (s : Regset) (inputRange : ℚ) : ℚ × ℚ :=
  let scale : ℚ := inputRange / (DWr : ℚ)
  ((s.cfg_neg : ℚ) * scale, (s.cfg_pos : ℚ) * scale)

/-- `osc.edge` setter: looks the string up in the alias dictionary; an
unknown string raises with no register write. -/
def edge_set (s : Regset) (value : String) : Regset × Bool :=
  match edges value with
  | some c => ({ s with cfg_edg := c }, false)
  | none => (s, true)

/-- `osc.decimation` setter: stores `value - 1` into `cfg_dec` (no range
check in the source). -/
def decimation_set (s : Regset) (value : ℤ) : Regset :=
  { s with cfg_dec := uint32 (value - 1) }

/-- `osc.decimation` getter: `cfg_dec + 1`. -/
def decimation_get (s : Regset) : ℕ := s.cfg_dec + 1

/-- `osc.sample_rate = FS / decimation`. -/
def sample_rate (s : Regset) : ℚ := FS / (decimation_get s : ℚ)

/-- `osc.sample_period = 1 / sample_rate`. -/
def sample_period (s : Regset) : ℚ := 1 / sample_rate s

/-- `osc.average` setter: writes `cfg_avg`, then evaluates
`math.ceil(math.log2(self.decimation))` — but `osc.py` never imports
`math`, so that second statement raises `NameError` unconditionally and
`cfg_shr` is never written. The `Bool` result is `true` to model the
raise. -/
def average_set (s : Regset) (value : Bool) : Regset × Bool :=
  ({ s with cfg_avg := if value then 1 else 0 }, true)

/-- Shift amount the `osc.average` setter was intended to write:
`ceil(log2 d)`, which for `d ≥ 1` is `Nat.clog 2 d`. -/
def averageShift (d : ℕ) : ℕ := Nat.clog 2 d

/-- `osc.filter_bypass` setter: `True` writes `1` to `cfg_byp`; the
`False` branch assigns `self.regset.cfg_mod`, a field that does not exist
in `regset_dtype`, so numpy raises `AttributeError` and `cfg_byp` is left
unchanged. -/
def filter_bypass_set (s : Regset) (value : Bool) : Regset × Bool :=
  if value then ({ s with cfg_byp := 1 }, false)
  else (s, true)

/-- `osc.filter_bypass` getter. -/
def filter_bypass_get (s : Regset) : Bool := s.cfg_byp ≠ 0

/-- `osc.filter_coeficients` setter: writes the four coefficient fields
in order AA, BB, KK, PP. -/
def filter_coeficients_set (s : Regset) (v : ℤ × ℤ × ℤ × ℤ) : Regset :=
  { s with
    cfg_faa := int32 v.1
    cfg_fbb := int32 v.2.1
    cfg_fkk := int32 v.2.2.1
    cfg_fpp := int32 v.2.2.2 }

/-- `osc.filter_coeficients` getter. -/
def filter_coeficients_get (s : Regset) : ℤ × ℤ × ℤ × ℤ :=
  (s.cfg_faa, s.cfg_fbb, s.cfg_fkk, s.cfg_fpp)

/-- `osc.input_range` setter: if the value is one of `ranges`, record it
and write the matching filter-coefficient preset; otherwise raise with no
register write. The second component of the result is the current input
range (the `__input_range` attribute). -/
def input_range_set (s : Regset) (cur : ℚ) (value : ℚ) : (Regset × ℚ) × Bool :=
  if value ∈ ranges then
    match filters value with
    | some c => ((filter_coeficients_set s c, value), false)
    | none => ((s, cur), true)
  else ((s, cur), true)

/-- `osc.pointer`: mask the overflow bit out of each status counter, sum,
and reduce modulo the table size. -/
def pointer (s : Regset) : ℕ :=
  ((s.sts_pre &&& 0x7fffffff) + (s.sts_pst &&& 0x7fffffff)) % N

/-- `osc.data(siz, ptr)`: `np.roll(self.table, -ptr)` rotates the buffer
so that slot `ptr` comes first; the Python slice `[-siz:]` then keeps the
last `min siz N` elements (all of them when `siz = 0`, since `[-0:]` is
`[0:]`), and each raw slot is scaled by `inputRange / DWr`. The buffer is
modelled as `tbl : ℕ → ℤ` read at indices `0 ≤ i < N`. -/
def data (tbl : ℕ → ℤ) (inputRange : ℚ) (siz : ℕ) (ptr : ℕ) : List ℚ :=
  let rolled := (List.range N).map (fun i => tbl ((i + ptr) % N))
  let sliced := if siz = 0 then rolled else rolled.drop (N - siz)
  sliced.map (fun x : ℤ => (x : ℚ) * (inputRange / (DWr : ℚ)))

/-- Concrete buffer contents used by the spec example: slots 4, 5, 6, 7
hold raw values 100, -200, 300, -400 and every other slot is 0. -/
def exampleTable (i : ℕ) : ℤ :=
  if i = 4 then 100
  else if i = 5 then -200
  else if i = 6 then 300
  else if i = 7 then -400
  else 0

end osc

end OscDrv

open OscDrv OscDrv.osc

/-- `DWr` evaluates to 32767. -/
theorem DWr_eq : DWr = 32767 := by decide

/-- `DWr` as a rational is 32767. -/
theorem DWr_ratCast : (DWr : ℚ) = 32767 := by rw [DWr_eq]; norm_num

/-- `N` evaluates to 16384. -/
theorem N_eq : N = 16384 := by decide

/-- C2: for all status-counter values, `pointer` equals the sum of the two
counters with their top overflow bits masked out, taken modulo 16384; in
particular `sts_pre = 0x80000005` and `sts_pst = 3` give pointer 8. -/
theorem claim_C2_pointer (s : Regset) :
    pointer s = ((s.sts_pre % 2 ^ 31) + (s.sts_pst % 2 ^ 31)) % 16384 ∧
    pointer { Regset.zero with sts_pre := 0x80000005, sts_pst := 3 } = 8 := by
  refine ⟨?_, by decide⟩
  have h1 := Nat.and_pow_two_sub_one_eq_mod s.sts_pre 31
  have h2 := Nat.and_pow_two_sub_one_eq_mod s.sts_pst 31
  unfold pointer
  rw [N_eq]
  norm_num at h1 h2 ⊢
  rw [h1, h2]

/-- C5: for every decimation factor d in [1, 2^17], the setter stores
d - 1 in `cfg_dec`, the getter reads back d, the sample rate is FS / d,
and the sample period is the reciprocal of the sample rate. -/
theorem claim_C5_decimation (s : Regset) (d : ℕ) (hd1 : 1 ≤ d) (hd2 : d ≤ 2 ^ 17) :
    (decimation_set s d).cfg_dec = d - 1 ∧
    decimation_get (decimation_set s d) = d ∧
    sample_rate (decimation_set s d) = FS / (d : ℚ) ∧
    sample_period (decimation_set s d) = 1 / sample_rate (decimation_set s d) := by
  have hstore : (decimation_set s d).cfg_dec = d - 1 := by
    unfold decimation_set uint32
    simp only
    omega
  have hget : decimation_get (decimation_set s d) = d := by
    unfold decimation_get
    rw [hstore]
    omega
  refine ⟨hstore, hget, ?_, rfl⟩
  unfold sample_rate
  rw [hget]

/-- C5 witness: decimation 8 round-trips. -/
theorem claim_C5_decimation_witness :
    ((1 : ℕ) ≤ 8 ∧ (8 : ℕ) ≤ 2 ^ 17) ∧
    decimation_get (decimation_set Regset.zero 8) = 8 :=
  ⟨by decide, (claim_C5_decimation Regset.zero 8 (by decide) (by decide)).2.1⟩

/-- C6: each positive-edge alias stores code 0 in `cfg_edg`, each
negative-edge alias stores code 1, and any string outside the alias table
raises with no register write. -/
theorem claim_C6_edge (s : Regset) (v : String)
    (h : v ∉ ["positive", "pos", "p", "+", "negative", "neg", "n", "-"]) :
    edge_set s "positive" = ({ s with cfg_edg := 0 }, false) ∧
    edge_set s "pos" = ({ s with cfg_edg := 0 }, false) ∧
    edge_set s "p" = ({ s with cfg_edg := 0 }, false) ∧
    edge_set s "+" = ({ s with cfg_edg := 0 }, false) ∧
    edge_set s "negative" = ({ s with cfg_edg := 1 }, false) ∧
    edge_set s "neg" = ({ s with cfg_edg := 1 }, false) ∧
    edge_set s "n" = ({ s with cfg_edg := 1 }, false) ∧
    edge_set s "-" = ({ s with cfg_edg := 1 }, false) ∧
    edge_set s v = (s, true) := by
  simp only [List.mem_cons, List.not_mem_nil, or_false, not_or] at h
  obtain ⟨h1, h2, h3, h4, h5, h6, h7, h8⟩ := h
  unfold edge_set edges
  simp [h1, h2, h3, h4, h5, h6, h7, h8]

/-- C6 witness: the string "x" is outside the alias table and is
rejected with no write. -/
theorem claim_C6_edge_witness :
    "x" ∉ (["positive", "pos", "p", "+", "negative", "neg", "n", "-"] : List String) ∧
    edge_set Regset.zero "x" = (Regset.zero, true) :=
  ⟨by decide, (claim_C6_edge Regset.zero "x" (by decide)).2.2.2.2.2.2.2.2⟩

/-- C7 (code defect): setting bypass to true writes 1 to `cfg_byp` as
claimed, but the disable branch of the source assigns `cfg_mod`, a field
that does not exist in the register layout, so it raises and `cfg_byp`
keeps its old value instead of being written to 0. -/
theorem claim_C7_filter_bypass (s : Regset) :
    filter_bypass_set s true = ({ s with cfg_byp := 1 }, false) ∧
    (filter_bypass_set s false).1.cfg_byp = s.cfg_byp ∧
    (filter_bypass_set s false).2 = true := by
  unfold filter_bypass_set
  simp

/-- C8 (code defect): the averaging setter writes 1 to `cfg_avg` but then
evaluates `math.ceil(math.log2(...))` with `math` never imported, so it
raises `NameError` and `cfg_shr` is never written, for every starting
state (hence for every decimation factor). -/
theorem claim_C8_average (s : Regset) :
    (average_set s true).1.cfg_avg = 1 ∧
    (average_set s true).1.cfg_shr = s.cfg_shr ∧
    (average_set s true).2 = true := by
  unfold average_set
  simp

/-- C9: an input range other than 1.0 or 20.0 is rejected with no
register write and no change to the stored range; ranges 1.0 and 20.0
are accepted, stored, and write their preset coefficient 4-tuple into
`cfg_faa`, `cfg_fbb`, `cfg_fkk`, `cfg_fpp`. -/
theorem claim_C9_input_range (s : Regset) (cur value : ℚ)
    (h : value ≠ 1 ∧ value ≠ 20) :
    input_range_set s cur value = ((s, cur), true) ∧
    (input_range_set s cur 1).2 = false ∧
    (input_range_set s cur 1).1.2 = 1 ∧
    (input_range_set s cur 1).1.1 =
      { s with cfg_faa := 0x7D93, cfg_fbb := 0x437C7, cfg_fkk := 0xd9999a, cfg_fpp := 0x2666 } ∧
    (input_range_set s cur 20).2 = false ∧
    (input_range_set s cur 20).1.2 = 20 ∧
    (input_range_set s cur 20).1.1 =
      { s with cfg_faa := 0x4C5F, cfg_fbb := 0x2F38B, cfg_fkk := 0xd9999a, cfg_fpp := 0x2666 } := by
  refine ⟨?_, ?_⟩
  · unfold input_range_set ranges
    simp [h.1, h.2]
  · unfold input_range_set ranges filters filter_coeficients_set int32
    norm_num

/-- C9 witness: input range 2.0 is rejected and leaves everything
unchanged. -/
theorem claim_C9_input_range_witness :
    ((2 : ℚ) ≠ 1 ∧ (2 : ℚ) ≠ 20) ∧
    input_range_set Regset.zero 1 2 = ((Regset.zero, 1), true) :=
  ⟨by norm_num, (claim_C9_input_range Regset.zero 1 2 (by norm_num)).1⟩

/-- `ratTrunc` never increases the absolute value. -/
theorem abs_ratTrunc_le (q : ℚ) : |(ratTrunc q : ℚ)| ≤ |q| := by
  unfold ratTrunc
  split
  next h =>
    rw [abs_of_nonneg h, abs_of_nonneg]
    · exact Int.floor_le q
    · exact_mod_cast Int.floor_nonneg.mpr h
  next h =>
    push_neg at h
    rw [abs_of_nonpos h.le, abs_of_nonpos]
    · exact neg_le_neg (Int.le_ceil q)
    · have hc : ⌈q⌉ ≤ (0 : ℤ) := Int.ceil_le.mpr (by exact_mod_cast h.le)
      exact_mod_cast hc

/-- `ratTrunc` is within distance 1 of its argument. -/
theorem abs_ratTrunc_sub_lt (q : ℚ) : |(ratTrunc q : ℚ) - q| < 1 := by
  unfold ratTrunc
  split
  next h =>
    rw [abs_sub_comm, abs_of_nonneg (sub_nonneg.mpr (Int.floor_le q))]
    have := Int.lt_floor_add_one q
    linarith
  next h =>
    rw [abs_of_nonneg (sub_nonneg.mpr (Int.le_ceil q))]
    have := Int.ceil_lt_add_one q
    linarith

/-- `int32` is the identity inside the signed 32-bit range. -/
theorem int32_eq_self (n : ℤ) (hlo : -(2 ^ 31) ≤ n) (hhi : n < 2 ^ 31) :
    int32 n = n := by
  unfold int32
  omega

/-- C3 counterexample: with negative level 0.5 (in range) and positive
level 2 (out of range), the setter raises, yet `cfg_neg` has been
written — it does not stay unchanged as the claim states. -/
theorem claim_C3_counterexample :
    (level_set Regset.zero 1 (1 / 2, 2)).2 = true ∧
    (level_set Regset.zero 1 (1 / 2, 2)).1.cfg_neg ≠ Regset.zero.cfg_neg := by
  have hfl : ratTrunc ((32767 : ℚ) / 2) = 16383 := by
    unfold ratTrunc
    rw [if_pos (by norm_num), Int.floor_eq_iff]
    norm_num
  unfold level_set
  rw [DWr_ratCast]
  norm_num [Regset.zero, int32, hfl]

/-- C3 amended: an out-of-range component still raises and always leaves
`cfg_pos` unchanged, and an out-of-range negative level leaves the whole
register set unchanged; but when the negative level is in range and the
positive level is out of range, `cfg_neg` has already been written with
the converted negative count before the raise. -/
theorem claim_C3_amended (s : Regset) (r : ℚ) (v : ℚ × ℚ)
    (h : ¬(-1 ≤ v.1 ∧ v.1 ≤ 1) ∨ ¬(-1 ≤ v.2 ∧ v.2 ≤ 1)) :
    (level_set s r v).2 = true ∧
    (level_set s r v).1.cfg_pos = s.cfg_pos ∧
    (¬(-1 ≤ v.1 ∧ v.1 ≤ 1) → (level_set s r v).1 = s) ∧
    ((-1 ≤ v.1 ∧ v.1 ≤ 1) →
      (level_set s r v).1.cfg_neg = int32 (ratTrunc (v.1 * ((DWr : ℚ) / r)))) := by
  unfold level_set
  by_cases h1 : -1 ≤ v.1 ∧ v.1 ≤ 1
  · rcases h with h | h
    · exact absurd h1 h
    · simp [h1, h]
  · simp [h1]

/-- C3 amended witness: negative level 0.5 with positive level 2 raises,
leaves `cfg_pos` unchanged, and has written `cfg_neg`. -/
theorem claim_C3_amended_witness :
    (¬(-1 ≤ ((1 / 2 : ℚ), (2 : ℚ)).2 ∧ ((1 / 2 : ℚ), (2 : ℚ)).2 ≤ 1)) ∧
    (level_set Regset.zero 1 (1 / 2, 2)).2 = true ∧
    (level_set Regset.zero 1 (1 / 2, 2)).1.cfg_pos = Regset.zero.cfg_pos ∧
    (level_set Regset.zero 1 (1 / 2, 2)).1.cfg_neg
      = int32 (ratTrunc ((1 / 2 : ℚ) * ((DWr : ℚ) / 1))) := by
  have h2 : ¬(-1 ≤ ((1 / 2 : ℚ), (2 : ℚ)).2 ∧ ((1 / 2 : ℚ), (2 : ℚ)).2 ≤ 1) := by norm_num
  have h := claim_C3_amended Regset.zero 1 (1 / 2, 2) (Or.inr h2)
  exact ⟨h2, h.1, h.2.1, h.2.2.2 (by norm_num)⟩

/-- C4 counterexample: writing trigger level 2/3 with input range 1
stores the truncation 21844 into `cfg_neg`, not the nearest integer
round(2/3 * 32767) = 21845 the claim requires. -/
theorem claim_C4_counterexample :
    (level_set Regset.zero 1 (2 / 3, 0)).1.cfg_neg
      ≠ round ((2 / 3 : ℚ) * (DWr : ℚ) / 1) := by
  have hfl : ratTrunc ((65534 : ℚ) / 3) = 21844 := by
    unfold ratTrunc
    rw [if_pos (by norm_num), Int.floor_eq_iff]
    norm_num
  have hrd : round ((65534 : ℚ) / 3) = 21845 := by
    rw [round_eq, Int.floor_eq_iff]
    norm_num
  unfold level_set
  rw [DWr_ratCast]
  norm_num [Regset.zero, int32, hfl, hrd]

/-- C4 amended: writing a trigger level v in [-1, 1] stores the
truncation toward zero of v * DWr / r (the numpy float-to-int32
assignment truncates; it does not round to nearest); reading converts
back as count * r / DWr, and the write-then-read round trip reproduces v
within one quantization step r / DWr. -/
theorem claim_C4_amended (s : Regset) (v r : ℚ)
    (h1 : -1 ≤ v) (h2 : v ≤ 1) (h3 : r = 1 ∨ r = 20) :
    (level_set s r (v, v)).2 = false ∧
    (level_set s r (v, v)).1.cfg_neg = ratTrunc (v * ((DWr : ℚ) / r)) ∧
    (level_set s r (v, v)).1.cfg_pos = ratTrunc (v * ((DWr : ℚ) / r)) ∧
    |(level_get (level_set s r (v, v)).1 r).1 - v| ≤ r / (DWr : ℚ) := by
  have hr : (0 : ℚ) < r := by rcases h3 with h | h <;> rw [h] <;> norm_num
  have hva : |v| ≤ 1 := abs_le.mpr ⟨h1, h2⟩
  set x : ℚ := v * ((DWr : ℚ) / r) with hx
  have hDW : (0 : ℚ) < (DWr : ℚ) := by rw [DWr_ratCast]; norm_num
  have hscale : (0 : ℚ) < (DWr : ℚ) / r := div_pos hDW hr
  have hxb : |x| ≤ (DWr : ℚ) / r := by
    rw [hx, abs_mul, abs_of_pos hscale]
    nlinarith [abs_nonneg v]
  have hsb : (DWr : ℚ) / r ≤ 32767 := by
    rw [DWr_ratCast]
    rcases h3 with h | h <;> rw [h] <;> norm_num
  have htb : |(ratTrunc x : ℚ)| ≤ 32767 :=
    le_trans (abs_ratTrunc_le x) (le_trans hxb hsb)
  have htb2 : |ratTrunc x| ≤ (32767 : ℤ) := by exact_mod_cast htb
  have hid : int32 (ratTrunc x) = ratTrunc x := by
    rw [abs_le] at htb2
    exact int32_eq_self _ (by omega) (by omega)
  have hsetneg : (level_set s r (v, v)).1.cfg_neg = int32 (ratTrunc x) := by
    unfold level_set
    simp [h1, h2]
  have hsetpos : (level_set s r (v, v)).1.cfg_pos = int32 (ratTrunc x) := by
    unfold level_set
    simp [h1, h2]
  have hsetok : (level_set s r (v, v)).2 = false := by
    unfold level_set
    simp [h1, h2]
  refine ⟨hsetok, by rw [hsetneg, hid], by rw [hsetpos, hid], ?_⟩
  have hrdw : (0 : ℚ) < r / (DWr : ℚ) := div_pos hr hDW
  have hvx : v = x * (r / (DWr : ℚ)) := by
    rw [hx]
    field_simp
  unfold level_get
  simp only
  rw [hsetneg, hid, hvx, ← sub_mul, abs_mul, abs_of_pos hrdw]
  nlinarith [abs_ratTrunc_sub_lt x, abs_nonneg ((ratTrunc x : ℚ) - x)]

/-- C4 amended witness: writing level 1/3 at range 1 succeeds and
reading back reproduces it within one quantization step. -/
theorem claim_C4_amended_witness :
    (-1 ≤ (1 / 3 : ℚ) ∧ (1 / 3 : ℚ) ≤ 1 ∧ ((1 : ℚ) = 1 ∨ (1 : ℚ) = 20)) ∧
    (level_set Regset.zero 1 (1 / 3, 1 / 3)).2 = false ∧
    |(level_get (level_set Regset.zero 1 (1 / 3, 1 / 3)).1 1).1 - 1 / 3|
      ≤ 1 / (DWr : ℚ) := by
  have h := claim_C4_amended Regset.zero (1 / 3) 1 (by norm_num) (by norm_num)
    (Or.inl rfl)
  exact ⟨⟨by norm_num, by norm_num, Or.inl rfl⟩, h.1, h.2.2.2⟩

/-- C1: for 0 < siz ≤ N and ptr < N, `data` returns exactly siz values,
oldest first, the i-th being the circular-buffer slot at index
(ptr - siz + i) mod N scaled by inputRange / DWr. -/
theorem claim_C1_data (tbl : ℕ → ℤ) (rng : ℚ) (siz ptr : ℕ)
    (h1 : 0 < siz) (h2 : siz ≤ N) (h3 : ptr < N) :
    (data tbl rng siz ptr).length = siz ∧
    ∀ i, i < siz →
      (data tbl rng siz ptr)[i]? =
        some ((tbl ((((ptr : ℤ) - siz + i) % (N : ℤ)).toNat) : ℚ)
          * (rng / (DWr : ℚ))) := by
  rw [N_eq] at h2 h3
  simp only [data, if_neg (Nat.pos_iff_ne_zero.mp h1), N_eq]
  constructor
  · simp only [List.length_map, List.length_drop, List.length_range]
    omega
  · intro i hi
    rw [List.getElem?_map, List.getElem?_drop, List.getElem?_map,
        List.getElem?_range (show 16384 - siz + i < 16384 by omega)]
    simp only [Option.map_some']
    have hidx : (16384 - siz + i + ptr) % 16384
        = (((ptr : ℤ) - siz + i) % ((16384 : ℕ) : ℤ)).toNat := by
      omega
    rw [hidx]

/-- C1 witness: the spec example — size 4, pointer 8, slots 4..7 holding
100, -200, 300, -400 at input range 1 — yields those four slots in
order, each scaled by 1/32767. -/
theorem claim_C1_data_witness :
    (0 < 4 ∧ 4 ≤ N ∧ 8 < N) ∧
    (data exampleTable 1 4 8).length = 4 ∧
    (data exampleTable 1 4 8)[0]? = some ((100 : ℚ) * (1 / 32767)) ∧
    (data exampleTable 1 4 8)[1]? = some ((-200 : ℚ) * (1 / 32767)) ∧
    (data exampleTable 1 4 8)[2]? = some ((300 : ℚ) * (1 / 32767)) ∧
    (data exampleTable 1 4 8)[3]? = some ((-400 : ℚ) * (1 / 32767)) := by
  have h := claim_C1_data exampleTable 1 4 8 (by decide) (by decide) (by decide)
  have t4 : Int.toNat 4 = 4 := rfl
  have t5 : Int.toNat 5 = 5 := rfl
  have t6 : Int.toNat 6 = 6 := rfl
  have t7 : Int.toNat 7 = 7 := rfl
  refine ⟨by decide, h.1, ?_, ?_, ?_, ?_⟩
  · rw [h.2 0 (by decide)]
    norm_num [exampleTable, DWr_ratCast, N_eq, t4, t5, t6, t7]
  · rw [h.2 1 (by decide)]
    norm_num [exampleTable, DWr_ratCast, N_eq, t4, t5, t6, t7]
  · rw [h.2 2 (by decide)]
    norm_num [exampleTable, DWr_ratCast, N_eq, t4, t5, t6, t7]
  · rw [h.2 3 (by decide)]
    norm_num [exampleTable, DWr_ratCast, N_eq, t4, t5, t6, t7]

/-- C10: for siz > N, `data` raises no error and returns only the N
buffer values, rotated so the sequence ends at the pointer and scaled by
inputRange / DWr — the result length is N, not siz. -/
theorem claim_C10_data_oversize (tbl : ℕ → ℤ) (rng : ℚ) (siz ptr : ℕ)
    (h1 : N < siz) (h3 : ptr < N) :
    (data tbl rng siz ptr).length = N ∧
    ∀ i, i < N →
      (data tbl rng siz ptr)[i]? =
        some ((tbl ((i + ptr) % N) : ℚ) * (rng / (DWr : ℚ))) := by
  have hz : N - siz = 0 := Nat.sub_eq_zero_of_le h1.le
  simp only [data, if_neg (by omega : ¬siz = 0), hz, List.drop_zero]
  constructor
  · simp only [List.length_map, List.length_range]
  · intro i hi
    rw [List.getElem?_map, List.getElem?_map, List.getElem?_range hi]
    simp only [Option.map_some']

/-- C10 witness: size 16385 on an all-zero buffer yields only N = 16384
values. -/
theorem claim_C10_data_oversize_witness :
    (N < 16385 ∧ 0 < N) ∧
    (data (fun _ => 0) 1 16385 0).length = N :=
  ⟨by decide,
   (claim_C10_data_oversize (fun _ => 0) 1 16385 0 (by decide) (by decide)).1⟩
